import Mathlib

/-!
Shallow embedding of the NER-For-CV-Extraction repository
(`src/data_preprocessing.py`, `src/inference.py`, `src/ner_training.py`,
`configs/spacy_train_sweep.py`) together with proofs about the embedded code.

Python strings are modelled as `List Char`, Python integers as `Int`,
and code that can raise an exception returns `Except String _`.
-/

/-- The set of characters matched by Python's regex `\s` (the compiled
pattern `invalid_span_tokens = re.compile(r'\s')` in `trim_entity_spans`):
ASCII whitespace plus the Unicode whitespace characters. -/
def isSpace (c : Char) : Bool :=
  [9, 10, 11, 12, 13, 28, 29, 30, 31, 32, 0x85, 0xa0, 0x1680,
   0x2000, 0x2001, 0x2002, 0x2003, 0x2004, 0x2005, 0x2006, 0x2007, 0x2008,
   0x2009, 0x200a, 0x2028, 0x2029, 0x202f, 0x205f, 0x3000].contains c.toNat

/-- Python string indexing `text[i]`: a nonnegative index counts from the
front, a negative index counts from the back, and an out-of-range index
raises `IndexError` (modelled as `none`). -/
def pyGet (text : List Char) (i : Int) : Option Char :=
  if 0 ≤ i then text.get? i.toNat
  else if 0 ≤ i + text.length then text.get? (i + text.length).toNat
  else none

/-- `true` when `text[i]` is a defined index holding a whitespace character. -/
def isSpaceAt (text : List Char) (i : Int) : Bool :=
  match pyGet text i with
  | some c => isSpace c
  | none => false

/-- The first `while` loop of `trim_entity_spans`:
`while valid_start < len(text) and invalid_span_tokens.match(text[valid_start]): valid_start += 1`.
Returns `Except.error` when the indexing raises. -/
def advStart (text : List Char) (vs : Int) : Except String Int :=
  if h : vs < (text.length : Int) then
    match pyGet text vs with
    | none => .error "IndexError"
    | some c => if isSpace c then advStart text (vs + 1) else .ok vs
  else .ok vs
termination_by ((text.length : Int) - vs).toNat
decreasing_by simp_wf; omega

/-- The second `while` loop of `trim_entity_spans`:
`while valid_end > valid_start and invalid_span_tokens.match(text[valid_end - 1]): valid_end -= 1`. -/
def retractEnd (text : List Char) (vs ve : Int) : Except String Int :=
  if h : vs < ve then
    match pyGet text (ve - 1) with
    | none => .error "IndexError"
    | some c => if isSpace c then retractEnd text vs (ve - 1) else .ok ve
  else .ok ve
termination_by (ve - vs).toNat
decreasing_by simp_wf; omega

/-- One `(text, annotations)` record of the annotated JSON data:
`[text, {"entities": [[start, end, label], ...]}]`. -/
structure Record where
  text : List Char
  entities : List (Int × Int × String)
deriving DecidableEq, Repr

/-- The body of the inner `for start, end, label in entities` loop of
`trim_entity_spans`: run both trimming loops, and return the trimmed span
when `valid_start < valid_end`, `none` when the entity is dropped. -/
def trimEntity (text : List Char) (e : Int × Int × String) :
    Except String (Option (Int × Int × String)) := do
  let vs ← advStart text e.1
  let ve ← retractEnd text vs e.2.1
  pure (if vs < ve then some (vs, ve, e.2.2) else none)

/-- Sequential effectful map, mirroring a Python `for` loop that can raise:
the first raised exception aborts the whole loop. -/
def mapExcept (f : α → Except String β) : List α → Except String (List β)
  | [] => .ok []
  | a :: l => do
      let b ← f a
      let bs ← mapExcept f l
      pure (b :: bs)

/-- The body of the outer `for text, annotations in data` loop of
`trim_entity_spans`: trim every entity and keep the valid ones
(`valid_entities.append` happens exactly for the `some` results). -/
def trimRecord (r : Record) : Except String Record := do
  let es ← mapExcept (trimEntity r.text) r.entities
  pure ⟨r.text, es.reduceOption⟩

/-- `trim_entity_spans` from `src/data_preprocessing.py`. -/
def trim_entity_spans (data : List Record) : Except String (List Record) :=
  mapExcept trimRecord data

/-- The value a successful `trimEntity` contributes to `valid_entities`
(`none` both when the entity is dropped and when trimming raised). -/
def trimEntityO (text : List Char) (e : Int × Int × String) :
    Option (Int × Int × String) :=
  match trimEntity text e with
  | .ok o => o
  | .error _ => none

/-- The property the specification ascribes to one trimmed span: `s'` is
`start` advanced past every leading whitespace character, `e'` is `end`
retracted past every trailing whitespace character, retraction never going
below `s'`. -/
def SpanTrim (text : List Char) (s e s' e' : Int) : Prop :=
  s ≤ s' ∧
  (∀ i : Int, s ≤ i → i < s' → isSpaceAt text i = true) ∧
  (s' < (text.length : Int) → isSpaceAt text s' = false) ∧
  (s ≤ (text.length : Int) → s' ≤ (text.length : Int)) ∧
  e' ≤ e ∧
  (∀ i : Int, e' ≤ i → i < e → isSpaceAt text i = true) ∧
  (e' < e → s' ≤ e') ∧
  (s' < e' → isSpaceAt text (e' - 1) = false)

/-- Python `range(s, e)` over integers. -/
def pyRange (s e : Int) : List Int :=
  (List.range (e - s).toNat).map (fun k : Nat => ((s + k : Int)))

/-- The skip test of `convert_to_spacy`:
`any(idx in entity_indices for idx in range(start, end))`. -/
def overlapSkip (entity_indices : List Int) (e : Int × Int × String) : Bool :=
  (pyRange e.1 e.2.1).any (fun idx => entity_indices.contains idx)

/-- The de-duplication loop of `convert_to_spacy`, one `Bool` per entity:
`true` when the entity is passed on to `doc.char_span`, `false` when the
`continue` branch skips it.  `entity_indices` is extended with
`list(range(start, end))` exactly for the accepted entities. -/
def acceptFlags : List Int → List (Int × Int × String) → List Bool
  | _, [] => []
  | entity_indices, e :: rest =>
      if overlapSkip entity_indices e then
        false :: acceptFlags entity_indices rest
      else
        true :: acceptFlags (entity_indices ++ pyRange e.1 e.2.1) rest

/-- The set of character indices `range(start, end)` covered by an entity. -/
def entCovers (e : Int × Int × String) (idx : Int) : Prop :=
  e.1 ≤ idx ∧ idx < e.2.1

/-- One entity of a spaCy `doc.ents`:
its surface text, `label_`, `start_char` and `end_char`. -/
structure SpacyEnt where
  text : List Char
  label : String
  start_char : Int
  end_char : Int
deriving DecidableEq, Repr

/-- Python `text[a:b]` for offsets with `0 ≤ a ≤ b ≤ len(text)` (the only
slices taken here: spaCy guarantees entity offsets lie inside the document). -/
def pySlice (text : List Char) (a b : Int) : List Char :=
  (text.take b.toNat).drop a.toNat

/-- The JSON-like structure built by `perform_ner_inference`:
`[[ent.text, {"entities": [[ent.start_char, ent.end_char, ent.label_]]}], ...]`. -/
abbrev NerJson := List (List Char × List (Int × Int × String))

/-- `perform_ner_inference` from `src/inference.py`, abstracting the loaded
spaCy model by the list of entities it detects: returns the `entities` list of
`{"Text", "Label"}` pairs and the `ner_json` list. -/
def perform_ner_inference (ents : List SpacyEnt) :
    List (List Char × String) × NerJson :=
  (ents.map (fun ent => (ent.text, ent.label)),
   ents.map (fun ent => (ent.text, [(ent.start_char, ent.end_char, ent.label)])))

/-- The parsed JSON body shape read by `get_recruiter_summary`:
`result["choices"][0]["message"]["content"]`. -/
structure LlmMessage where
  content : String
deriving DecidableEq, Repr

structure LlmChoice where
  message : LlmMessage
deriving DecidableEq, Repr

structure LlmResult where
  choices : List LlmChoice
deriving DecidableEq, Repr

/-- An HTTP response as seen by `get_recruiter_summary`: a status code and
the outcome of `response.json()` (which itself can raise). -/
structure HttpResponse where
  status : Nat
  jsonBody : Except String LlmResult
deriving Repr

/-- `response.raise_for_status()` from `requests`: raises exactly for
4xx/5xx status codes. -/
def raise_for_status (resp : HttpResponse) : Except String Unit :=
  if 400 ≤ resp.status ∧ resp.status < 600 then
    .error ("HTTP Error " ++ toString resp.status)
  else .ok ()

/-- The `try` block of `get_recruiter_summary`.  The network call
`requests.post` is abstracted by its outcome `post` (either a raised
exception or an `HttpResponse`). -/
def summaryTryBlock (post : Except String HttpResponse) : Except String String := do
  let resp ← post
  raise_for_status resp
  let result ← resp.jsonBody
  match result.choices with
  | [] => .error "list index out of range"
  | c :: _ => pure c.message.content

/-- `get_recruiter_summary` from `src/inference.py`: the `try`/`except`
wrapper around the OpenRouter request. -/
def get_recruiter_summary (post : Except String HttpResponse) : String :=
  match summaryTryBlock post with
  | .ok content => content
  | .error e => "❌ Error during recruiter summary generation: " ++ e

/-- Control-flow outcome of an error-handling path: the lines it prints,
and whether it exits the interpreter (`sys.exit`). -/
inductive ProgFlow where
  | continued (printed : List String)
  | exited (printed : List String) (code : Int)
deriving DecidableEq, Repr

/-- Whether the flow ends in `sys.exit`. -/
def ProgFlow.isExit : ProgFlow → Bool
  | .continued _ => false
  | .exited _ _ => true

/-- `train_sweep` from `src/ner_training.py`, abstracting `wandb.config` by
the override list and `spacy_train` by its outcome: the `except` branch
prints the failure, the `finally` branch always prints, and the function
never exits. -/
def train_sweep (overrides : List (String × String))
    (trainResult : Except String Unit) : ProgFlow :=
  .continued
    (["🚀 Starting W&B sweep run...", "--- Active Sweep Parameters ---"] ++
     overrides.map (fun kv => kv.1 ++ ": " ++ kv.2) ++
     (match trainResult with
      | .ok _ => []
      | .error e => ["❌ Training failed: " ++ e]) ++
     ["--- Run finished ---"])

/-- `train_with_wandb_config` from `configs/spacy_train_sweep.py`,
abstracting `spacy.cli.train` by its outcome: on failure it prints the
error and calls `sys.exit(1)`. -/
def train_with_wandb_config (trainResult : Except String Unit) : ProgFlow :=
  match trainResult with
  | .ok _ => .continued []
  | .error e => .exited ["An error occurred during training: " ++ e] 1

/-- Configuration constants of `src/inference.py`. -/
def MODEL_PATH : String := "./output/model-last"

def PDF_PATH : String := "./examples/sample_cv.pdf"

def OUTPUT_JSON : String := "./examples/sample_output.json"

def USE_LLM_ANALYSIS : Bool := true

/-- The externally visible steps taken by `main` in `src/inference.py`. -/
inductive MainEvent where
  | extractText (pdfPath : String)
  | nerInference (modelPath : String) (docText : List Char)
  | writeJson (outPath : String) (payload : NerJson)
  | llmRequest (jobPosition : String) (results : NerJson)
  | printSummary (summary : String)
deriving DecidableEq, Repr

/-- `main` from `src/inference.py` as the sequence of steps it performs,
parameterised by the configuration flag and by oracles for the external
collaborators (PyMuPDF text extraction, the loaded spaCy model, and the
outcome of the OpenRouter request). -/
def mainEvents (useLLM : Bool) (extractOracle : String → List Char)
    (nerOracle : String → List Char → List SpacyEnt)
    (post : Except String HttpResponse) (jobPosition : String) :
    List MainEvent :=
  let text := extractOracle PDF_PATH
  let ents := nerOracle MODEL_PATH text
  let nerJson := (perform_ner_inference ents).2
  [MainEvent.extractText PDF_PATH,
   MainEvent.nerInference MODEL_PATH text,
   MainEvent.writeJson OUTPUT_JSON nerJson] ++
  (if useLLM then
    [MainEvent.llmRequest jobPosition nerJson,
     MainEvent.printSummary (get_recruiter_summary post)]
   else [])

/-- All spans of a record satisfy `0 <= start <= end <= len(text)`. -/
def SpanInBounds (r : Record) : Prop :=
  ∀ ent ∈ r.entities,
    0 ≤ ent.1 ∧ ent.1 ≤ ent.2.1 ∧ ent.2.1 ≤ (r.text.length : Int)

/-- All spans of a record satisfy `0 <= start` and `end <= len(text)`
(no requirement that `start <= end`). -/
def OffsetsSafe (r : Record) : Prop :=
  ∀ ent ∈ r.entities, 0 ≤ ent.1 ∧ ent.2.1 ≤ (r.text.length : Int)

/-- What the specification says `trim_entity_spans` does to one record:
the text is kept, every span is replaced by its trimmed version, an entity
is kept exactly when its trimmed span is nonempty, and every kept span
begins and ends with a non-whitespace character of the text. -/
def TrimRecordCorrect (r out_r : Record) : Prop :=
  out_r.text = r.text ∧
  (∀ ent ∈ r.entities, ∃ s' e',
      SpanTrim r.text ent.1 ent.2.1 s' e' ∧
      trimEntityO r.text ent = (if s' < e' then some (s', e', ent.2.2) else none)) ∧
  out_r.entities = r.entities.filterMap (trimEntityO r.text) ∧
  (∀ ent2 ∈ out_r.entities,
      ent2.1 < ent2.2.1 ∧ 0 ≤ ent2.1 ∧ ent2.2.1 ≤ (r.text.length : Int) ∧
      isSpaceAt r.text ent2.1 = false ∧ isSpaceAt r.text (ent2.2.1 - 1) = false)

/-- The lines printed along an error-handling path. -/
def ProgFlow.printed : ProgFlow → List String
  | .continued p => p
  | .exited p _ => p

instance decSpanInBounds (r : Record) : Decidable (SpanInBounds r) := by
  unfold SpanInBounds; infer_instance

instance decOffsetsSafe (r : Record) : Decidable (OffsetsSafe r) := by
  unfold OffsetsSafe; infer_instance

/-- A concrete annotated record used to instantiate the theorems. -/
def trimDemo : List Record := [⟨(" ab ").toList, [((0 : Int), 4, "NAME")]⟩]

/-- A concrete entity list used to instantiate the de-duplication theorems. -/
def dedupDemo : List (Int × Int × String) :=
  [((0 : Int), 3, "A"), ((2 : Int), 5, "B"), ((3 : Int), 6, "C")]

/-- A concrete document text used to instantiate the inference theorems. -/
def nerDemoText : List Char := ("John Smith works").toList

/-- A concrete detected-entity list satisfying spaCy's slicing contract. -/
def nerDemoEnts : List SpacyEnt := [⟨("John Smith").toList, "NAME", 0, 10⟩]

theorem pyGet_in_range (text : List Char) (i : Int) (h0 : 0 ≤ i)
    (h1 : i < (text.length : Int)) :
    ∃ c, pyGet text i = some c ∧ isSpaceAt text i = isSpace c := by
  have hn : i.toNat < text.length := by omega
  refine ⟨text.get ⟨i.toNat, hn⟩, ?_, ?_⟩
  · simp [pyGet, h0, List.get?_eq_get hn]
  · simp [isSpaceAt, pyGet, h0, List.get?_eq_get hn, List.getElem?_eq_getElem hn]

theorem advStart_spec (text : List Char) :
    ∀ vs : Int, 0 ≤ vs →
    ∃ r, advStart text vs = .ok r ∧ vs ≤ r ∧
      (∀ i : Int, vs ≤ i → i < r → isSpaceAt text i = true) ∧
      (r < (text.length : Int) → isSpaceAt text r = false) ∧
      (vs ≤ (text.length : Int) → r ≤ (text.length : Int)) ∧
      ((text.length : Int) ≤ vs → r = vs) := by
  intro vs0 h00
  have H : ∀ n : Nat, ∀ vs : Int, ((text.length : Int) - vs).toNat = n → 0 ≤ vs →
      ∃ r, advStart text vs = .ok r ∧ vs ≤ r ∧
        (∀ i : Int, vs ≤ i → i < r → isSpaceAt text i = true) ∧
        (r < (text.length : Int) → isSpaceAt text r = false) ∧
        (vs ≤ (text.length : Int) → r ≤ (text.length : Int)) ∧
        ((text.length : Int) ≤ vs → r = vs) := by
    intro n
    induction n using Nat.strong_induction_on with
    | _ n ih =>
      intro vs hn h0
      rw [advStart]
      by_cases hlt : vs < (text.length : Int)
      · obtain ⟨c, hc, hsc⟩ := pyGet_in_range text vs h0 hlt
        rw [dif_pos hlt, hc]
        dsimp only
        by_cases hsp : isSpace c
        · rw [if_pos hsp]
          obtain ⟨r, hr, hle, hws, hstop, hbnd, htriv⟩ :=
            ih (((text.length : Int) - (vs + 1)).toNat) (by omega) (vs + 1) rfl (by omega)
          refine ⟨r, hr, by omega, ?_, hstop, fun _ => hbnd (by omega), fun h => by omega⟩
          intro i hi1 hi2
          rcases eq_or_lt_of_le hi1 with h | h
          · rw [← h, hsc]; exact hsp
          · exact hws i (by omega) hi2
        · rw [if_neg hsp]
          refine ⟨vs, rfl, le_refl _, fun i h1 h2 => absurd h1 (by omega), ?_, fun _ => by omega,
            fun h => rfl⟩
          intro _
          rw [hsc]; exact Bool.eq_false_iff.mpr hsp
      · rw [dif_neg hlt]
        exact ⟨vs, rfl, le_refl _, fun i h1 h2 => absurd h1 (by omega),
          fun h => absurd h hlt, fun h => by omega, fun _ => rfl⟩
  exact H _ vs0 rfl h00

theorem retractEnd_spec (text : List Char) :
    ∀ vs ve : Int, 0 ≤ vs → ve ≤ (text.length : Int) →
    ∃ r, retractEnd text vs ve = .ok r ∧ r ≤ ve ∧
      (∀ i : Int, r ≤ i → i < ve → isSpaceAt text i = true) ∧
      (r < ve → vs ≤ r) ∧
      (vs < r → isSpaceAt text (r - 1) = false) ∧
      (ve ≤ vs → r = ve) := by
  intro vs0 ve0 h00 h01
  have H : ∀ n : Nat, ∀ ve : Int, (ve - vs0).toNat = n → ve ≤ (text.length : Int) →
      ∃ r, retractEnd text vs0 ve = .ok r ∧ r ≤ ve ∧
        (∀ i : Int, r ≤ i → i < ve → isSpaceAt text i = true) ∧
        (r < ve → vs0 ≤ r) ∧
        (vs0 < r → isSpaceAt text (r - 1) = false) ∧
        (ve ≤ vs0 → r = ve) := by
    intro n
    induction n using Nat.strong_induction_on with
    | _ n ih =>
      intro ve hn hle
      rw [retractEnd]
      by_cases hlt : vs0 < ve
      · obtain ⟨c, hc, hsc⟩ := pyGet_in_range text (ve - 1) (by omega) (by omega)
        rw [dif_pos hlt, hc]
        dsimp only
        by_cases hsp : isSpace c
        · rw [if_pos hsp]
          obtain ⟨r, hr, hle2, hws, hge, hstop, htriv⟩ :=
            ih ((ve - 1 - vs0).toNat) (by omega) (ve - 1) rfl (by omega)
          refine ⟨r, hr, by omega, ?_, ?_, hstop, fun h => by omega⟩
          · intro i hi1 hi2
            rcases lt_or_le i (ve - 1) with h | h
            · exact hws i hi1 h
            · have : i = ve - 1 := by omega
              rw [this, hsc]; exact hsp
          · intro _
            rcases lt_or_le r (ve - 1) with h | h
            · exact hge h
            · omega
        · rw [if_neg hsp]
          refine ⟨ve, rfl, le_refl _, fun i h1 h2 => absurd h1 (by omega),
            fun h => absurd h (by omega), ?_, fun _ => rfl⟩
          intro _
          rw [hsc]; exact Bool.eq_false_iff.mpr hsp
      · rw [dif_neg hlt]
        exact ⟨ve, rfl, le_refl _, fun i h1 h2 => absurd h1 (by omega),
          fun h => absurd h (by omega), fun h => by omega, fun _ => rfl⟩
  exact H _ ve0 rfl h01

theorem except_bind_ok {α β : Type} (a : α) (f : α → Except String β) :
    (Except.ok a >>= f) = f a := rfl

theorem except_bind_error {α β : Type} (e : String) (f : α → Except String β) :
    ((Except.error e : Except String α) >>= f) = .error e := rfl

theorem mapExcept_ok_of {α β : Type} (f : α → Except String β) (g : α → β) :
    ∀ l : List α, (∀ a ∈ l, f a = .ok (g a)) → mapExcept f l = .ok (l.map g) := by
  intro l
  induction l with
  | nil => intro _; rfl
  | cons a l ih =>
      intro h
      have ha : f a = .ok (g a) := h a (List.mem_cons_self a l)
      have hl : mapExcept f l = .ok (l.map g) :=
        ih (fun b hb => h b (List.mem_cons_of_mem a hb))
      simp [mapExcept, ha, hl, except_bind_ok]

theorem mapExcept_ok_inv {α β : Type} (f : α → Except String β) :
    ∀ (l : List α) (bs : List β), mapExcept f l = .ok bs →
      bs.length = l.length ∧
      ∀ k (hk : k < l.length) (hk' : k < bs.length),
        f (l.get ⟨k, hk⟩) = .ok (bs.get ⟨k, hk'⟩) := by
  intro l
  induction l with
  | nil =>
      intro bs h
      simp [mapExcept] at h
      subst h
      exact ⟨rfl, by intro k hk hk2; simp at hk⟩
  | cons a l ih =>
      intro bs h
      cases hfa : f a with
      | error e => rw [mapExcept, hfa, except_bind_error] at h; exact absurd h (by simp)
      | ok b =>
          rw [mapExcept, hfa, except_bind_ok] at h
          cases hml : mapExcept f l with
          | error e => rw [hml, except_bind_error] at h; exact absurd h (by simp)
          | ok bs' =>
              rw [hml, except_bind_ok] at h
              have hbs : bs = b :: bs' := by
                have : (Except.ok (b :: bs') : Except String (List β)) = .ok bs := h
                simpa using this.symm
              subst hbs
              obtain ⟨hlen, hpt⟩ := ih bs' hml
              refine ⟨by simp [hlen], ?_⟩
              intro k hk hk'
              match k with
              | 0 => simpa using hfa
              | k + 1 =>
                  simpa using hpt k (by simpa using hk) (by simpa using hk')

theorem trimEntityO_eq {text : List Char} {e : Int × Int × String}
    {o : Option (Int × Int × String)} (h : trimEntity text e = .ok o) :
    trimEntityO text e = o := by
  unfold trimEntityO
  rw [h]

theorem trimEntity_spec (text : List Char) (s e : Int) (lab : String)
    (h0 : 0 ≤ s) (h2 : e ≤ (text.length : Int)) :
    ∃ s' e', trimEntity text (s, e, lab) =
        .ok (if s' < e' then some (s', e', lab) else none) ∧
      SpanTrim text s e s' e' := by
  obtain ⟨s', hadv, hs1, hs2, hs3, hs4, hs5⟩ := advStart_spec text s h0
  obtain ⟨e', hret, he1, he2, he3, he4, he5⟩ :=
    retractEnd_spec text s' e (by omega) h2
  refine ⟨s', e', ?_, hs1, hs2, hs3, hs4, he1, he2, he3, he4⟩
  unfold trimEntity
  rw [hadv, except_bind_ok, hret, except_bind_ok]
  rfl

theorem reduceOption_map_eq {α β : Type} (g : α → Option β) (l : List α) :
    (l.map g).reduceOption = l.filterMap g := by
  simp [List.reduceOption, List.filterMap_map]

theorem trimRecord_spec (r : Record)
    (hb : ∀ ent ∈ r.entities, 0 ≤ ent.1 ∧ ent.2.1 ≤ (r.text.length : Int)) :
    trimRecord r = .ok ⟨r.text, r.entities.filterMap (trimEntityO r.text)⟩ := by
  have hmap : mapExcept (trimEntity r.text) r.entities =
      .ok (r.entities.map (trimEntityO r.text)) := by
    apply mapExcept_ok_of
    intro ent hent
    obtain ⟨h0, h2⟩ := hb ent hent
    obtain ⟨s', e', htrim, _⟩ := trimEntity_spec r.text ent.1 ent.2.1 ent.2.2 h0 h2
    have htrim2 : trimEntity r.text ent =
        .ok (if s' < e' then some (s', e', ent.2.2) else none) := htrim
    rw [htrim2, trimEntityO_eq htrim2]
  unfold trimRecord
  rw [hmap, except_bind_ok, reduceOption_map_eq]
  rfl

theorem trim_entity_spans_spec (data : List Record)
    (hb : ∀ r ∈ data, ∀ ent ∈ r.entities, 0 ≤ ent.1 ∧ ent.2.1 ≤ (r.text.length : Int)) :
    trim_entity_spans data =
      .ok (data.map (fun r => ⟨r.text, r.entities.filterMap (trimEntityO r.text)⟩)) := by
  unfold trim_entity_spans
  exact mapExcept_ok_of trimRecord _ data (fun r hr => trimRecord_spec r (hb r hr))

theorem trimRecordCorrect_of (r : Record) (hb : OffsetsSafe r) :
    TrimRecordCorrect r ⟨r.text, r.entities.filterMap (trimEntityO r.text)⟩ := by
  refine ⟨rfl, ?_, rfl, ?_⟩
  · intro ent hent
    obtain ⟨h0, h2⟩ := hb ent hent
    obtain ⟨s', e', htrim, hspan⟩ := trimEntity_spec r.text ent.1 ent.2.1 ent.2.2 h0 h2
    have htrim2 : trimEntity r.text ent =
        .ok (if s' < e' then some (s', e', ent.2.2) else none) := htrim
    exact ⟨s', e', hspan, trimEntityO_eq htrim2⟩
  · intro ent2 hmem
    rw [List.mem_filterMap] at hmem
    obtain ⟨ent, hent, hg⟩ := hmem
    obtain ⟨h0, h2⟩ := hb ent hent
    obtain ⟨s', e', htrim, t1, t2, t3, t4, t5, t6, t7, t8⟩ :=
      trimEntity_spec r.text ent.1 ent.2.1 ent.2.2 h0 h2
    have htrim2 : trimEntity r.text ent =
        .ok (if s' < e' then some (s', e', ent.2.2) else none) := htrim
    rw [trimEntityO_eq htrim2] at hg
    by_cases hlt : s' < e'
    · rw [if_pos hlt] at hg
      have he := Option.some.inj hg
      rw [← he]
      show s' < e' ∧ 0 ≤ s' ∧ e' ≤ (r.text.length : Int) ∧
        isSpaceAt r.text s' = false ∧ isSpaceAt r.text (e' - 1) = false
      exact ⟨hlt, by omega, by omega, t3 (by omega), t8 hlt⟩
    · rw [if_neg hlt] at hg
      exact absurd hg (by simp)

/-- C1: for every input whose spans satisfy `0 ≤ start ≤ end ≤ len(text)`,
`trim_entity_spans` replaces each span by its trimmed version
(`start` advanced past leading whitespace, `end` retracted past trailing
whitespace, never below the new start), keeps an entity iff the trimmed
span is nonempty, and every kept span begins and ends with a
non-whitespace character of the text. -/
theorem trim_entity_spans_trims_correctly (data : List Record)
    (hb : ∀ r ∈ data, SpanInBounds r) :
    ∃ out, trim_entity_spans data = .ok out ∧ out.length = data.length ∧
      ∀ k (hk : k < data.length) (hk2 : k < out.length),
        TrimRecordCorrect (data.get ⟨k, hk⟩) (out.get ⟨k, hk2⟩) := by
  have hb2 : ∀ r ∈ data, ∀ ent ∈ r.entities,
      0 ≤ ent.1 ∧ ent.2.1 ≤ (r.text.length : Int) := by
    intro r hr ent hent
    obtain ⟨x, _, z⟩ := hb r hr ent hent
    exact ⟨x, z⟩
  refine ⟨_, trim_entity_spans_spec data hb2, by simp, ?_⟩
  intro k hk hk2
  have hget : (data.map
      (fun r => Record.mk r.text (r.entities.filterMap (trimEntityO r.text)))).get ⟨k, hk2⟩ =
      Record.mk (data.get ⟨k, hk⟩).text
        ((data.get ⟨k, hk⟩).entities.filterMap (trimEntityO (data.get ⟨k, hk⟩).text)) := by
    simp [List.getElem_map]
  rw [hget]
  exact trimRecordCorrect_of _ (hb2 _ (List.get_mem data k hk))

theorem trimEntity_ok_inv (text : List Char) (ent : Int × Int × String)
    (o : Option (Int × Int × String)) (h : trimEntity text ent = .ok o) :
    ∃ s' e', advStart text ent.1 = .ok s' ∧ retractEnd text s' ent.2.1 = .ok e' ∧
      o = if s' < e' then some (s', e', ent.2.2) else none := by
  unfold trimEntity at h
  cases ha : advStart text ent.1 with
  | error msg => rw [ha, except_bind_error] at h; exact absurd h (by simp)
  | ok s' =>
      rw [ha, except_bind_ok] at h
      cases hr : retractEnd text s' ent.2.1 with
      | error msg => rw [hr, except_bind_error] at h; exact absurd h (by simp)
      | ok e' =>
          rw [hr, except_bind_ok] at h
          exact ⟨s', e', rfl, hr, (Except.ok.inj h).symm⟩

theorem trimRecord_ok_inv (r r' : Record) (h : trimRecord r = .ok r') :
    r'.text = r.text ∧ r'.entities = r.entities.filterMap (trimEntityO r.text) ∧
    ∀ ent ∈ r.entities, ∃ o, trimEntity r.text ent = .ok o := by
  unfold trimRecord at h
  cases hm : mapExcept (trimEntity r.text) r.entities with
  | error msg => rw [hm, except_bind_error] at h; exact absurd h (by simp)
  | ok es =>
      rw [hm, except_bind_ok] at h
      have hr' : r' = ⟨r.text, es.reduceOption⟩ := (Except.ok.inj h).symm
      obtain ⟨hlen, hpt⟩ := mapExcept_ok_inv _ _ _ hm
      have hes : es = r.entities.map (trimEntityO r.text) := by
        apply List.ext_get (by simp [hlen])
        intro n h1 h2
        rw [List.get_map]
        exact (trimEntityO_eq (hpt n (by omega) h1)).symm
      subst hr'
      refine ⟨rfl, by rw [hes, reduceOption_map_eq], ?_⟩
      intro ent hent
      obtain ⟨⟨n, hn⟩, rfl⟩ := List.mem_iff_get.mp hent
      exact ⟨_, hpt n hn (by omega)⟩

/-- C5: whenever `trim_entity_spans` returns, the returned list has exactly
one record per input record, in the same order, with each record's text
identical to the input; each record's output entities arise from its input
entities in order by a per-entity transformation that keeps the label and
only changes the offsets, dropping an entity exactly when its trimmed span
is empty, and adding nothing. -/
theorem trim_entity_spans_frame (data out : List Record)
    (h : trim_entity_spans data = .ok out) :
    out.length = data.length ∧
    ∀ k (hk : k < data.length) (hk2 : k < out.length),
      (out.get ⟨k, hk2⟩).text = (data.get ⟨k, hk⟩).text ∧
      (out.get ⟨k, hk2⟩).entities =
        (data.get ⟨k, hk⟩).entities.filterMap (trimEntityO (data.get ⟨k, hk⟩).text) ∧
      ∀ ent ∈ (data.get ⟨k, hk⟩).entities, ∃ s' e',
        trimEntityO (data.get ⟨k, hk⟩).text ent =
          (if s' < e' then some (s', e', ent.2.2) else none) := by
  unfold trim_entity_spans at h
  obtain ⟨hlen, hpt⟩ := mapExcept_ok_inv _ _ _ h
  refine ⟨hlen, ?_⟩
  intro k hk hk2
  obtain ⟨ht, hent, hall⟩ := trimRecord_ok_inv _ _ (hpt k hk hk2)
  refine ⟨ht, hent, ?_⟩
  intro ent hmem
  obtain ⟨o, ho⟩ := hall ent hmem
  obtain ⟨s', e', _, _, rfl⟩ := trimEntity_ok_inv _ _ _ ho
  exact ⟨s', e', trimEntityO_eq ho⟩

/-- C3 (amended): for every record whose entity offsets satisfy
`0 ≤ start` and `end ≤ len(text)`, `trim_entity_spans` returns without
raising, and every span it outputs satisfies `0 ≤ start' < end' ≤ len(text)`. -/
theorem trim_entity_spans_validates (data : List Record)
    (hb : ∀ r ∈ data, OffsetsSafe r) :
    ∃ out, trim_entity_spans data = .ok out ∧
      ∀ r2 ∈ out, ∀ ent2 ∈ r2.entities,
        0 ≤ ent2.1 ∧ ent2.1 < ent2.2.1 ∧ ent2.2.1 ≤ (r2.text.length : Int) := by
  have hb2 : ∀ r ∈ data, ∀ ent ∈ r.entities,
      0 ≤ ent.1 ∧ ent.2.1 ≤ (r.text.length : Int) := hb
  refine ⟨_, trim_entity_spans_spec data hb2, ?_⟩
  intro r2 hr2 ent2 hent2
  rw [List.mem_map] at hr2
  obtain ⟨r, hr, rfl⟩ := hr2
  obtain ⟨_, _, _, hkept⟩ := trimRecordCorrect_of r (hb r hr)
  obtain ⟨h1, h2, h3, _, _⟩ := hkept ent2 hent2
  exact ⟨h2, h1, h3⟩

/-- C3 counterexample: with `text = "xa"` and the integer span
`(start, end) = (-1, 2)`, `trim_entity_spans` returns the record unchanged,
so the output span has `start' = -1 < 0`, violating the claimed
`0 ≤ start'` (Python's negative indexing makes `text[-1]` a valid,
non-whitespace character, so neither loop moves and no error is raised). -/
theorem trim_entity_spans_nonvalidation :
    trim_entity_spans [⟨("xa").toList, [((-1 : Int), 2, "L")]⟩] =
      .ok [⟨("xa").toList, [((-1 : Int), 2, "L")]⟩] ∧
    ¬ (0 ≤ (-1 : Int)) := by
  constructor
  · have h1 : advStart ("xa").toList (-1) = .ok (-1) := by
      rw [advStart]
      rfl
    have h2 : retractEnd ("xa").toList (-1) 2 = .ok 2 := by
      rw [retractEnd]
      rfl
    have h3 : trimEntity ("xa").toList ((-1 : Int), 2, "L") = .ok (some ((-1 : Int), 2, "L")) := by
      unfold trimEntity
      rw [h1, except_bind_ok, h2, except_bind_ok, if_pos (by norm_num : (-1 : Int) < 2)]
      rfl
    have h4 : trimRecord ⟨("xa").toList, [((-1 : Int), 2, "L")]⟩ =
        .ok ⟨("xa").toList, [((-1 : Int), 2, "L")]⟩ := by
      unfold trimRecord
      rw [show mapExcept (trimEntity ("xa").toList) [((-1 : Int), 2, "L")] =
          .ok [some ((-1 : Int), 2, "L")] by
        rw [mapExcept, h3, except_bind_ok, mapExcept, except_bind_ok]
        rfl]
      rfl
    unfold trim_entity_spans
    rw [mapExcept, h4, except_bind_ok, mapExcept, except_bind_ok]
    rfl
  · norm_num

theorem trimEntity_fixed (text : List Char) (s' e' : Int) (lab : String)
    (h0 : 0 ≤ s') (hlt : s' < e') (hle : e' ≤ (text.length : Int))
    (hs : isSpaceAt text s' = false) (he : isSpaceAt text (e' - 1) = false) :
    trimEntity text (s', e', lab) = .ok (some (s', e', lab)) := by
  have ha : advStart text s' = .ok s' := by
    rw [advStart, dif_pos (by omega : s' < (text.length : Int))]
    obtain ⟨c, hc, hsc⟩ := pyGet_in_range text s' h0 (by omega)
    rw [hc]
    dsimp only
    rw [if_neg (by rw [hsc] at hs; simp [hs])]
  have hr : retractEnd text s' e' = .ok e' := by
    rw [retractEnd, dif_pos hlt]
    obtain ⟨c, hc, hsc⟩ := pyGet_in_range text (e' - 1) (by omega) (by omega)
    rw [hc]
    dsimp only
    rw [if_neg (by rw [hsc] at he; simp [he])]
  unfold trimEntity
  rw [ha, except_bind_ok, hr, except_bind_ok, if_pos hlt]
  rfl

theorem filterMap_id_of {α : Type} (g : α → Option α) :
    ∀ l : List α, (∀ a ∈ l, g a = some a) → l.filterMap g = l := by
  intro l
  induction l with
  | nil => intro _; rfl
  | cons a l ih =>
      intro h
      rw [List.filterMap_cons, h a (List.mem_cons_self a l),
        ih (fun b hb => h b (List.mem_cons_of_mem a hb))]

theorem map_congr_of {α β : Type} (f g : α → β) :
    ∀ l : List α, (∀ a ∈ l, f a = g a) → l.map f = l.map g := by
  intro l
  induction l with
  | nil => intro _; rfl
  | cons a l ih =>
      intro h
      rw [List.map_cons, List.map_cons, h a (List.mem_cons_self a l),
        ih (fun b hb => h b (List.mem_cons_of_mem a hb))]

/-- C7: `trim_entity_spans` is idempotent on inputs whose spans lie within
the bounds of their texts: the first application succeeds, and applying
the function to its own output returns that output unchanged. -/
theorem trim_entity_spans_idempotent (data : List Record)
    (hb : ∀ r ∈ data, SpanInBounds r) :
    ∃ out, trim_entity_spans data = .ok out ∧ trim_entity_spans out = .ok out := by
  have hb2 : ∀ r ∈ data, OffsetsSafe r := by
    intro r hr ent hent
    obtain ⟨x, _, z⟩ := hb r hr ent hent
    exact ⟨x, z⟩
  refine ⟨_, trim_entity_spans_spec data hb2, ?_⟩
  have hfix : ∀ r ∈ data,
      Record.mk r.text
        ((r.entities.filterMap (trimEntityO r.text)).filterMap (trimEntityO r.text)) =
      Record.mk r.text (r.entities.filterMap (trimEntityO r.text)) := by
    intro r hr
    obtain ⟨_, _, _, hkept⟩ := trimRecordCorrect_of r (hb2 r hr)
    have hall : ∀ ent2 ∈ r.entities.filterMap (trimEntityO r.text),
        trimEntityO r.text ent2 = some ent2 := by
      intro ent2 hent2
      obtain ⟨hlt, hge, hle, hns1, hns2⟩ := hkept ent2 hent2
      have hfix2 : trimEntity r.text (ent2.1, ent2.2.1, ent2.2.2) =
          .ok (some (ent2.1, ent2.2.1, ent2.2.2)) :=
        trimEntity_fixed r.text ent2.1 ent2.2.1 ent2.2.2 hge hlt hle hns1 hns2
      have hfix3 : trimEntity r.text ent2 = .ok (some ent2) := hfix2
      exact trimEntityO_eq hfix3
    rw [filterMap_id_of _ _ hall]
  have hout : ∀ r2 ∈ data.map
      (fun r => Record.mk r.text (r.entities.filterMap (trimEntityO r.text))), OffsetsSafe r2 := by
    intro r2 hr2
    rw [List.mem_map] at hr2
    obtain ⟨r, hr, rfl⟩ := hr2
    obtain ⟨_, _, _, hkept⟩ := trimRecordCorrect_of r (hb2 r hr)
    intro ent2 hent2
    obtain ⟨_, hge, hle, _, _⟩ := hkept ent2 hent2
    exact ⟨hge, hle⟩
  rw [trim_entity_spans_spec _ hout, List.map_map]
  exact congrArg Except.ok (map_congr_of _ _ data (fun r hr => hfix r hr))

/-- C8: `perform_ner_inference` returns two lists of equal length, one
element per detected entity in detection order; the k-th `ner_json` record
is `[entity_text, {"entities": [[start_char, end_char, label]]}]` with
exactly one offset triple, whose first component is the entity's own text
(the slice of the full document at the triple's offsets, under spaCy's
contract `ent.text == doc.text[ent.start_char:ent.end_char]`), while the
offsets are character offsets into the full document. -/
theorem perform_ner_inference_spec (fullText : List Char) (ents : List SpacyEnt)
    (hc : ∀ ent ∈ ents, ent.text = pySlice fullText ent.start_char ent.end_char) :
    (perform_ner_inference ents).1.length = ents.length ∧
    (perform_ner_inference ents).2.length = ents.length ∧
    ∀ k (hk : k < ents.length) (hk2 : k < (perform_ner_inference ents).2.length),
      (perform_ner_inference ents).2.get ⟨k, hk2⟩ =
        (pySlice fullText (ents.get ⟨k, hk⟩).start_char (ents.get ⟨k, hk⟩).end_char,
         [((ents.get ⟨k, hk⟩).start_char, (ents.get ⟨k, hk⟩).end_char,
           (ents.get ⟨k, hk⟩).label)]) := by
  refine ⟨by simp [perform_ner_inference], by simp [perform_ner_inference], ?_⟩
  intro k hk hk2
  have hget : (perform_ner_inference ents).2.get ⟨k, hk2⟩ =
      ((ents.get ⟨k, hk⟩).text,
       [((ents.get ⟨k, hk⟩).start_char, (ents.get ⟨k, hk⟩).end_char,
         (ents.get ⟨k, hk⟩).label)]) := by
    simp [perform_ner_inference, List.get_map]
  rw [hget, hc _ (List.get_mem ents k hk)]

/-- C9: `get_recruiter_summary` never raises: whatever the outcome of the
HTTP request (a raised exception, an error status, an unparsable body, or
a body with no choices), it returns a string; on failure that string is
the error message prefixed by `❌ Error during recruiter summary
generation:`, and `main` still goes on to print it (no exit). -/
theorem get_recruiter_summary_never_raises (post : Except String HttpResponse)
    (e : String) (hf : summaryTryBlock post = .error e) :
    get_recruiter_summary post = "❌ Error during recruiter summary generation: " ++ e ∧
    ∀ (extractOracle : String → List Char)
      (nerOracle : String → List Char → List SpacyEnt) (jobPosition : String),
      (mainEvents true extractOracle nerOracle post jobPosition).getLast? =
        some (MainEvent.printSummary
          ("❌ Error during recruiter summary generation: " ++ e)) := by
  have hs : get_recruiter_summary post =
      "❌ Error during recruiter summary generation: " ++ e := by
    unfold get_recruiter_summary
    rw [hf]
  refine ⟨hs, ?_⟩
  intro extractOracle nerOracle jobPosition
  have hlast : (mainEvents true extractOracle nerOracle post jobPosition).getLast? =
      some (MainEvent.printSummary (get_recruiter_summary post)) := rfl
  rw [hlast, hs]

/-- C4 counterexample: a failing spaCy training call inside a sweep run is
caught by `train_sweep`, which prints the failure but does not exit the
program, contradicting the claim that such failures are reported by
printing and exiting. -/
theorem train_sweep_failure_does_not_exit :
    ¬ ((train_sweep [] (.error "CUDA error: out of memory")).isExit = true) := by
  decide

/-- C4 (amended): every failing external call is caught and reported with a
printed (or returned) error message carrying the underlying exception text;
only `train_with_wandb_config` in `configs/spacy_train_sweep.py` then exits
the program (with code 1), while `train_sweep` continues after printing and
`get_recruiter_summary` returns the error string without exiting. -/
theorem external_failures_reported (overrides : List (String × String))
    (eTrain eSweep : String) (post : Except String HttpResponse) (eHttp : String)
    (hf : summaryTryBlock post = .error eHttp) :
    (("❌ Training failed: " ++ eTrain) ∈ (train_sweep overrides (.error eTrain)).printed ∧
      (train_sweep overrides (.error eTrain)).isExit = false) ∧
    train_with_wandb_config (.error eSweep) =
      .exited ["An error occurred during training: " ++ eSweep] 1 ∧
    get_recruiter_summary post = "❌ Error during recruiter summary generation: " ++ eHttp := by
  refine ⟨⟨?_, rfl⟩, rfl, ?_⟩
  · simp [train_sweep, ProgFlow.printed]
  · unfold get_recruiter_summary
    rw [hf]

/-- C6: `main` in `src/inference.py` performs, in order, PDF text
extraction, NER inference on the extracted text, and writing of the entity
JSON; an LLM recruiter-summary request appears in the run exactly when the
`USE_LLM_ANALYSIS` flag (set to `true` in the source) is true, it comes
only after the first three steps, and it consumes exactly the `ner_json`
produced by the NER step. -/
theorem main_pipeline_order (useLLM : Bool) (extractOracle : String → List Char)
    (nerOracle : String → List Char → List SpacyEnt) (post : Except String HttpResponse)
    (jobPosition : String) :
    USE_LLM_ANALYSIS = true ∧
    (mainEvents useLLM extractOracle nerOracle post jobPosition).take 3 =
      [MainEvent.extractText PDF_PATH,
       MainEvent.nerInference MODEL_PATH (extractOracle PDF_PATH),
       MainEvent.writeJson OUTPUT_JSON
         (perform_ner_inference (nerOracle MODEL_PATH (extractOracle PDF_PATH))).2] ∧
    ((∃ j r, MainEvent.llmRequest j r ∈
        mainEvents useLLM extractOracle nerOracle post jobPosition) ↔ useLLM = true) ∧
    ∀ n (hn : n < (mainEvents useLLM extractOracle nerOracle post jobPosition).length)
      (j : String) (r : NerJson),
      (mainEvents useLLM extractOracle nerOracle post jobPosition).get ⟨n, hn⟩ =
        MainEvent.llmRequest j r →
      3 ≤ n ∧ r = (perform_ner_inference (nerOracle MODEL_PATH (extractOracle PDF_PATH))).2 := by
  cases useLLM with
  | true =>
      refine ⟨rfl, rfl, ⟨fun _ => rfl, fun _ => ?_⟩, ?_⟩
      · refine ⟨jobPosition,
          (perform_ner_inference (nerOracle MODEL_PATH (extractOracle PDF_PATH))).2, ?_⟩
        simp [mainEvents]
      · intro n hn j r hget
        have hn5 : n < 5 := hn
        interval_cases n
        · exact absurd (show MainEvent.extractText PDF_PATH =
            MainEvent.llmRequest j r from hget) (by simp)
        · exact absurd (show MainEvent.nerInference MODEL_PATH (extractOracle PDF_PATH) =
            MainEvent.llmRequest j r from hget) (by simp)
        · exact absurd (show MainEvent.writeJson OUTPUT_JSON
            (perform_ner_inference (nerOracle MODEL_PATH (extractOracle PDF_PATH))).2 =
            MainEvent.llmRequest j r from hget) (by simp)
        · have h3 : MainEvent.llmRequest jobPosition
              (perform_ner_inference (nerOracle MODEL_PATH (extractOracle PDF_PATH))).2 =
              MainEvent.llmRequest j r := hget
          injection h3 with h31 h32
          exact ⟨by omega, h32.symm⟩
        · exact absurd (show MainEvent.printSummary (get_recruiter_summary post) =
            MainEvent.llmRequest j r from hget) (by simp)
  | false =>
      refine ⟨rfl, rfl, ⟨?_, fun h => by simp at h⟩, ?_⟩
      · rintro ⟨j, r, hm⟩
        simp [mainEvents] at hm
      · intro n hn j r hget
        have hn3 : n < 3 := hn
        interval_cases n
        · exact absurd (show MainEvent.extractText PDF_PATH =
            MainEvent.llmRequest j r from hget) (by simp)
        · exact absurd (show MainEvent.nerInference MODEL_PATH (extractOracle PDF_PATH) =
            MainEvent.llmRequest j r from hget) (by simp)
        · exact absurd (show MainEvent.writeJson OUTPUT_JSON
            (perform_ner_inference (nerOracle MODEL_PATH (extractOracle PDF_PATH))).2 =
            MainEvent.llmRequest j r from hget) (by simp)

/-- C10: preprocessing is deterministic: `trim_entity_spans` and the
entity-overlap filter of `convert_to_spacy` are pure functions of their
inputs, so equal inputs give equal outputs. -/
theorem preprocessing_deterministic (d1 d2 : List Record) (hd : d1 = d2)
    (e1 e2 : List (Int × Int × String)) (he : e1 = e2) :
    trim_entity_spans d1 = trim_entity_spans d2 ∧
    acceptFlags [] e1 = acceptFlags [] e2 := by
  rw [hd, he]
  exact ⟨rfl, rfl⟩

theorem mem_pyRange {s e idx : Int} : idx ∈ pyRange s e ↔ s ≤ idx ∧ idx < e := by
  unfold pyRange
  rw [List.mem_map]
  constructor
  · rintro ⟨k, hk, rfl⟩
    rw [List.mem_range] at hk
    omega
  · rintro ⟨h1, h2⟩
    exact ⟨(idx - s).toNat, by rw [List.mem_range]; omega, by omega⟩

theorem overlapSkip_iff (acc : List Int) (e : Int × Int × String) :
    overlapSkip acc e = true ↔ ∃ idx : Int, entCovers e idx ∧ idx ∈ acc := by
  unfold overlapSkip entCovers
  rw [List.any_eq_true]
  constructor
  · rintro ⟨idx, hidx, hc⟩
    exact ⟨idx, mem_pyRange.mp hidx, by simpa using hc⟩
  · rintro ⟨idx, hcov, hmem⟩
    exact ⟨idx, mem_pyRange.mpr hcov, by simpa using hmem⟩

theorem acceptFlags_invariant : ∀ (ents : List (Int × Int × String)) (acc : List Int),
    (acceptFlags acc ents).length = ents.length ∧
    ∀ k, k < ents.length →
      ((acceptFlags acc ents).getD k true = false ↔
        ∃ idx : Int, entCovers (ents.getD k (0, 0, "")) idx ∧
          (idx ∈ acc ∨ ∃ j, j < k ∧ (acceptFlags acc ents).getD j true = true ∧
            entCovers (ents.getD j (0, 0, "")) idx)) := by
  intro ents
  induction ents with
  | nil => exact fun acc => ⟨rfl, fun k hk => absurd hk (by simp)⟩
  | cons e rest ih =>
      intro acc
      by_cases hskip : overlapSkip acc e = true
      · have hF : acceptFlags acc (e :: rest) = false :: acceptFlags acc rest := by
          rw [acceptFlags, if_pos hskip]
        rw [hF]
        obtain ⟨ihlen, ihpt⟩ := ih acc
        refine ⟨by simp [ihlen], ?_⟩
        intro k hk
        cases k with
        | zero =>
            simp only [List.getD_cons_zero]
            constructor
            · intro _
              obtain ⟨idx, hcov, hmem⟩ := (overlapSkip_iff acc e).mp hskip
              exact ⟨idx, hcov, Or.inl hmem⟩
            · intro _; trivial
        | succ k =>
            simp only [List.getD_cons_succ]
            have hk' : k < rest.length := by simp [List.length_cons] at hk; omega
            rw [ihpt k hk']
            constructor
            · rintro ⟨idx, hcov, hrest⟩
              refine ⟨idx, hcov, ?_⟩
              rcases hrest with hacc | ⟨j, hj, hflag, hcov2⟩
              · exact Or.inl hacc
              · exact Or.inr ⟨j + 1, by omega, by simpa using hflag, by simpa using hcov2⟩
            · rintro ⟨idx, hcov, hrest⟩
              refine ⟨idx, hcov, ?_⟩
              rcases hrest with hacc | ⟨j, hj, hflag, hcov2⟩
              · exact Or.inl hacc
              · cases j with
                | zero => simp at hflag
                | succ j =>
                    exact Or.inr ⟨j, by omega, by simpa using hflag, by simpa using hcov2⟩
      · have hskip2 : overlapSkip acc e = false := Bool.eq_false_iff.mpr hskip
        have hF : acceptFlags acc (e :: rest) =
            true :: acceptFlags (acc ++ pyRange e.1 e.2.1) rest := by
          rw [acceptFlags, if_neg (by simp [hskip2])]
        rw [hF]
        obtain ⟨ihlen, ihpt⟩ := ih (acc ++ pyRange e.1 e.2.1)
        refine ⟨by simp [ihlen], ?_⟩
        intro k hk
        cases k with
        | zero =>
            simp only [List.getD_cons_zero]
            constructor
            · intro h; exact absurd h (by simp)
            · rintro ⟨idx, hcov, hrest⟩
              rcases hrest with hacc | ⟨j, hj, _, _⟩
              · exact absurd ((overlapSkip_iff acc e).mpr ⟨idx, hcov, hacc⟩)
                  (by simp [hskip2])
              · exact absurd hj (by omega)
        | succ k =>
            simp only [List.getD_cons_succ]
            have hk' : k < rest.length := by simp [List.length_cons] at hk; omega
            rw [ihpt k hk']
            constructor
            · rintro ⟨idx, hcov, hrest⟩
              refine ⟨idx, hcov, ?_⟩
              rcases hrest with hacc | ⟨j, hj, hflag, hcov2⟩
              · rw [List.mem_append] at hacc
                rcases hacc with h1 | h2
                · exact Or.inl h1
                · refine Or.inr ⟨0, by omega, by simp, ?_⟩
                  simp only [List.getD_cons_zero]
                  exact mem_pyRange.mp h2
              · exact Or.inr ⟨j + 1, by omega, by simpa using hflag, by simpa using hcov2⟩
            · rintro ⟨idx, hcov, hrest⟩
              refine ⟨idx, hcov, ?_⟩
              rcases hrest with hacc | ⟨j, hj, hflag, hcov2⟩
              · exact Or.inl (List.mem_append.mpr (Or.inl hacc))
              · cases j with
                | zero =>
                    refine Or.inl (List.mem_append.mpr (Or.inr ?_))
                    rw [mem_pyRange]
                    simpa using hcov2
                | succ j =>
                    exact Or.inr ⟨j, by omega, by simpa using hflag, by simpa using hcov2⟩

/-- C2: in `convert_to_spacy`, an entity is skipped exactly when its
character index range `[start, end)` shares an index with the range of some
earlier non-skipped entity of the same record, and consequently the ranges
of the accepted entities (those passed on to `doc.char_span`) are pairwise
disjoint, earlier-listed entities taking priority. -/
theorem convert_to_spacy_skip_iff (ents : List (Int × Int × String)) (k : Nat)
    (hk : k < ents.length) :
    ((acceptFlags [] ents).getD k true = false ↔
      ∃ j, j < k ∧ (acceptFlags [] ents).getD j true = true ∧
        ∃ idx : Int, entCovers (ents.getD j (0, 0, "")) idx ∧
          entCovers (ents.getD k (0, 0, "")) idx) ∧
    ∀ j, j < k → (acceptFlags [] ents).getD j true = true →
      (acceptFlags [] ents).getD k true = true →
      ¬ ∃ idx : Int, entCovers (ents.getD j (0, 0, "")) idx ∧
        entCovers (ents.getD k (0, 0, "")) idx := by
  obtain ⟨_, hpt⟩ := acceptFlags_invariant ents []
  have hiff := hpt k hk
  constructor
  · rw [hiff]
    constructor
    · rintro ⟨idx, hcovk, hrest⟩
      rcases hrest with hacc | ⟨j, hj, hflag, hcovj⟩
      · exact absurd hacc (List.not_mem_nil idx)
      · exact ⟨j, hj, hflag, idx, hcovj, hcovk⟩
    · rintro ⟨j, hj, hflag, idx, hcovj, hcovk⟩
      exact ⟨idx, hcovk, Or.inr ⟨j, hj, hflag, hcovj⟩⟩
  · rintro j hj hfj hfk ⟨idx, hcovj, hcovk⟩
    have hcontra : (acceptFlags [] ents).getD k true = false :=
      hiff.mpr ⟨idx, hcovk, Or.inr ⟨j, hj, hfj, hcovj⟩⟩
    rw [hfk] at hcontra
    exact absurd hcontra (by simp)

theorem trim_entity_spans_trims_correctly_witness :
    (∀ r ∈ trimDemo, SpanInBounds r) ∧
    (∃ out, trim_entity_spans trimDemo = .ok out ∧ out.length = trimDemo.length ∧
      ∀ k (hk : k < trimDemo.length) (hk2 : k < out.length),
        TrimRecordCorrect (trimDemo.get ⟨k, hk⟩) (out.get ⟨k, hk2⟩)) :=
  ⟨by decide, trim_entity_spans_trims_correctly trimDemo (by decide)⟩

theorem convert_to_spacy_skip_iff_witness :
    (1 < dedupDemo.length) ∧
    (((acceptFlags [] dedupDemo).getD 1 true = false ↔
      ∃ j, j < 1 ∧ (acceptFlags [] dedupDemo).getD j true = true ∧
        ∃ idx : Int, entCovers (dedupDemo.getD j (0, 0, "")) idx ∧
          entCovers (dedupDemo.getD 1 (0, 0, "")) idx) ∧
    ∀ j, j < 1 → (acceptFlags [] dedupDemo).getD j true = true →
      (acceptFlags [] dedupDemo).getD 1 true = true →
      ¬ ∃ idx : Int, entCovers (dedupDemo.getD j (0, 0, "")) idx ∧
        entCovers (dedupDemo.getD 1 (0, 0, "")) idx) :=
  ⟨by decide, convert_to_spacy_skip_iff dedupDemo 1 (by decide)⟩

theorem trim_entity_spans_validates_witness :
    (∀ r ∈ trimDemo, OffsetsSafe r) ∧
    (∃ out, trim_entity_spans trimDemo = .ok out ∧
      ∀ r2 ∈ out, ∀ ent2 ∈ r2.entities,
        0 ≤ ent2.1 ∧ ent2.1 < ent2.2.1 ∧ ent2.2.1 ≤ (r2.text.length : Int)) :=
  ⟨by decide, trim_entity_spans_validates trimDemo (by decide)⟩

theorem external_failures_reported_witness :
    summaryTryBlock (.error "ConnectionError") = .error "ConnectionError" ∧
    ((("❌ Training failed: " ++ "CUDA error") ∈
        (train_sweep [] (.error "CUDA error")).printed ∧
      (train_sweep [] (.error "CUDA error")).isExit = false) ∧
    train_with_wandb_config (.error "ValueError") =
      .exited ["An error occurred during training: " ++ "ValueError"] 1 ∧
    get_recruiter_summary (.error "ConnectionError") =
      "❌ Error during recruiter summary generation: " ++ "ConnectionError") :=
  ⟨rfl, external_failures_reported [] "CUDA error" "ValueError"
    (.error "ConnectionError") "ConnectionError" rfl⟩

theorem trim_entity_spans_frame_witness :
    trim_entity_spans trimDemo = .ok (trimDemo.map
      (fun r => Record.mk r.text (r.entities.filterMap (trimEntityO r.text)))) ∧
    ((trimDemo.map
        (fun r => Record.mk r.text (r.entities.filterMap (trimEntityO r.text)))).length =
      trimDemo.length ∧
    ∀ k (hk : k < trimDemo.length)
      (hk2 : k < (trimDemo.map
        (fun r => Record.mk r.text (r.entities.filterMap (trimEntityO r.text)))).length),
      ((trimDemo.map
          (fun r => Record.mk r.text (r.entities.filterMap (trimEntityO r.text)))).get
            ⟨k, hk2⟩).text = (trimDemo.get ⟨k, hk⟩).text ∧
      ((trimDemo.map
          (fun r => Record.mk r.text (r.entities.filterMap (trimEntityO r.text)))).get
            ⟨k, hk2⟩).entities =
        (trimDemo.get ⟨k, hk⟩).entities.filterMap (trimEntityO (trimDemo.get ⟨k, hk⟩).text) ∧
      ∀ ent ∈ (trimDemo.get ⟨k, hk⟩).entities, ∃ s' e',
        trimEntityO (trimDemo.get ⟨k, hk⟩).text ent =
          (if s' < e' then some (s', e', ent.2.2) else none)) :=
  ⟨trim_entity_spans_spec trimDemo (by decide),
   trim_entity_spans_frame trimDemo _ (trim_entity_spans_spec trimDemo (by decide))⟩

theorem main_pipeline_order_witness :
    USE_LLM_ANALYSIS = true ∧
    (mainEvents true (fun _ => []) (fun _ _ => []) (.error "down") "QA").take 3 =
      [MainEvent.extractText PDF_PATH, MainEvent.nerInference MODEL_PATH [],
       MainEvent.writeJson OUTPUT_JSON (perform_ner_inference []).2] ∧
    ((∃ j r, MainEvent.llmRequest j r ∈
        mainEvents true (fun _ => []) (fun _ _ => []) (.error "down") "QA") ↔ true = true) ∧
    ∀ n (hn : n < (mainEvents true (fun _ => []) (fun _ _ => []) (.error "down") "QA").length)
      (j : String) (r : NerJson),
      (mainEvents true (fun _ => []) (fun _ _ => []) (.error "down") "QA").get ⟨n, hn⟩ =
        MainEvent.llmRequest j r →
      3 ≤ n ∧ r = (perform_ner_inference []).2 :=
  main_pipeline_order true (fun _ => []) (fun _ _ => []) (.error "down") "QA"

theorem trim_entity_spans_idempotent_witness :
    (∀ r ∈ trimDemo, SpanInBounds r) ∧
    (∃ out, trim_entity_spans trimDemo = .ok out ∧ trim_entity_spans out = .ok out) :=
  ⟨by decide, trim_entity_spans_idempotent trimDemo (by decide)⟩

theorem perform_ner_inference_spec_witness :
    (∀ ent ∈ nerDemoEnts, ent.text = pySlice nerDemoText ent.start_char ent.end_char) ∧
    ((perform_ner_inference nerDemoEnts).1.length = nerDemoEnts.length ∧
     (perform_ner_inference nerDemoEnts).2.length = nerDemoEnts.length ∧
     ∀ k (hk : k < nerDemoEnts.length)
       (hk2 : k < (perform_ner_inference nerDemoEnts).2.length),
       (perform_ner_inference nerDemoEnts).2.get ⟨k, hk2⟩ =
         (pySlice nerDemoText (nerDemoEnts.get ⟨k, hk⟩).start_char
            (nerDemoEnts.get ⟨k, hk⟩).end_char,
          [((nerDemoEnts.get ⟨k, hk⟩).start_char, (nerDemoEnts.get ⟨k, hk⟩).end_char,
            (nerDemoEnts.get ⟨k, hk⟩).label)])) :=
  ⟨by decide, perform_ner_inference_spec nerDemoText nerDemoEnts (by decide)⟩

theorem get_recruiter_summary_never_raises_witness :
    summaryTryBlock (.error "ReadTimeout") = .error "ReadTimeout" ∧
    (get_recruiter_summary (.error "ReadTimeout") =
      "❌ Error during recruiter summary generation: " ++ "ReadTimeout" ∧
     ∀ (extractOracle : String → List Char)
       (nerOracle : String → List Char → List SpacyEnt) (jobPosition : String),
       (mainEvents true extractOracle nerOracle (.error "ReadTimeout") jobPosition).getLast? =
         some (MainEvent.printSummary
           ("❌ Error during recruiter summary generation: " ++ "ReadTimeout"))) :=
  ⟨rfl, get_recruiter_summary_never_raises (.error "ReadTimeout") "ReadTimeout" rfl⟩

theorem preprocessing_deterministic_witness :
    (trimDemo = trimDemo ∧ dedupDemo = dedupDemo) ∧
    (trim_entity_spans trimDemo = trim_entity_spans trimDemo ∧
     acceptFlags [] dedupDemo = acceptFlags [] dedupDemo) :=
  ⟨⟨rfl, rfl⟩, preprocessing_deterministic trimDemo trimDemo rfl dedupDemo dedupDemo rfl⟩
